import Mathlib

/-!
Verification of the multichain-tools client library against its specification.

The TypeScript sources are shallowly embedded: pure functions become Lean
functions, JavaScript numbers and `BN`/`Decimal` values become `Nat`/`Int`
with explicit scaling, thrown exceptions become `Except`, and `undefined`
becomes `Option`.  Calls into external npm libraries (elliptic, js-sha3,
canonicalize, cosmjs, bitcoinjs-lib, coinselect) are modelled by Lean
functions implementing the library's documented semantics; each such model
carries a comment saying what it models.
-/

/-! ## Generic string/number utilities (JS semantics helpers) -/

/-- Numeric value of one hexadecimal digit; any non-hex character counts 0
(inputs in scope are valid hex strings). -/
def hexVal (c : Char) : Nat :=
  if '0' ≤ c ∧ c ≤ '9' then c.toNat - '0'.toNat
  else if 'a' ≤ c ∧ c ≤ 'f' then c.toNat - 'a'.toNat + 10
  else if 'A' ≤ c ∧ c ≤ 'F' then c.toNat - 'A'.toNat + 10
  else 0

/-- Big-endian hex string to natural number, as `new BN(str, 16)` reads it. -/
def hexToNat (s : String) : Nat :=
  s.data.foldl (fun acc c => acc * 16 + hexVal c) 0

/-- Minimal lowercase hex rendering of a natural number, as BN's
`toString('hex')` produces (`0` renders as `"0"`). -/
def natToHex (n : Nat) : String :=
  String.mk (Nat.toDigits 16 n)

/-- JavaScript `String.prototype.padStart(w, '0')`. -/
def padStartZeros (w : Nat) (s : String) : String :=
  if w ≤ s.length then s
  else String.mk (List.replicate (w - s.length) '0') ++ s

/-- JavaScript `s.substring(a, b)` for `a ≤ b`. -/
def jsSubstring (s : String) (a b : Nat) : String :=
  (s.drop a).take (b - a)

/-- JavaScript `s.substring(a)`. -/
def jsSubstringFrom (s : String) (a : Nat) : String :=
  s.drop a

/-! ## secp256k1 affine arithmetic

Models the arithmetic performed by the `elliptic` npm package on the
secp256k1 curve (`y² = x³ + 7` over the prime field of order `secpP`).
The library computes in Jacobian coordinates internally; the affine
formulas below are its mathematical semantics. -/

def secpP : Nat :=
  0xfffffffffffffffffffffffffffffffffffffffffffffffffffffffefffffc2f

/-- Order of the secp256k1 base point. -/
def secpN : Nat :=
  0xfffffffffffffffffffffffffffffffebaaedce6af48a03bbfd25e8cd0364141

def fadd (a b : Nat) : Nat := (a + b) % secpP

def fsub (a b : Nat) : Nat := (a + (secpP - b % secpP)) % secpP

def fmul (a b : Nat) : Nat := a * b % secpP

/-- Binary modular exponentiation, structurally recursive on a fuel bound on
the bit length of the exponent. -/
def powModAux : Nat → Nat → Nat → Nat → Nat
  | 0, _, _, m => 1 % m
  | f + 1, b, e, m =>
    if e = 0 then 1 % m
    else
      let r := powModAux f (b * b % m) (e / 2) m
      if e % 2 = 1 then r * b % m else r

def powMod (b e m : Nat) : Nat := powModAux 400 b e m

/-- Modular inverse in the base field by Fermat's little theorem. -/
def modInv (a : Nat) : Nat := powMod (a % secpP) (secpP - 2) secpP

/-- Affine point: `none` is the point at infinity. -/
abbrev Point := Option (Nat × Nat)

/-- Affine point addition with the chord/tangent formulas used by
`elliptic` (curve coefficient `a = 0`); inverse points (and doubling a
point with `y = 0`) give the point at infinity. -/
def pointAdd : Point → Point → Point
  | none, q => q
  | some pt, none => some pt
  | some (x1, y1), some (x2, y2) =>
    if x1 % secpP = x2 % secpP then
      if (y1 + y2) % secpP = 0 then none
      else
        let lam := fmul (fmul 3 (fmul x1 x1)) (modInv (fmul 2 y1))
        let x3 := fsub (fsub (fmul lam lam) x1) x2
        some (x3, fsub (fmul lam (fsub x1 x3)) y1)
    else
      let lam := fmul (fsub y2 y1) (modInv (fsub x2 x1))
      let x3 := fsub (fsub (fmul lam lam) x1) x2
      some (x3, fsub (fmul lam (fsub x1 x3)) y1)

/-- Double-and-add scalar multiplication, structurally recursive on a fuel
bound on the bit length of the scalar; `0 · P` is the point at infinity. -/
def scalarMulFuel : Nat → Nat → Point → Point
  | 0, _, _ => none
  | f + 1, k, pt =>
    if k = 0 then none
    else
      let rest := scalarMulFuel f (k / 2) (pointAdd pt pt)
      if k % 2 = 1 then pointAdd rest pt else rest

/-- `k · P` for `k < 2^257`. -/
def scalarMul (k : Nat) (pt : Point) : Point := scalarMulFuel 257 k pt

def secpGx : Nat :=
  0x79be667ef9dcbbac55a06295ce870b07029bfcdb2dce28d959f2815b16f81798

def secpGy : Nat :=
  0x483ada7726a3c4655da4fbfc0e1108a8fd17b448a68554199c47d08ffb10d4b8

/-- The secp256k1 base point `G`. -/
def secpG : Point := some (secpGx, secpGy)

/-! ## Key derivation (src/src/kdf/kdf.ts) -/

/-- The epsilon derivation domain tag (`kdf.ts` line 26). -/
def epsilonDerivationTag : String :=
  "near-mpc-recovery v0.1.0 epsilon derivation:"

/-- The string hashed to obtain epsilon: tag, signer id, a comma, path. -/
def epsilonStr (signerId path : String) : String :=
  epsilonDerivationTag ++ signerId ++ "," ++ path

/-- Models `ec.g.mul(scalarHex)` of the elliptic library: base-point
multiplication by the hex scalar.  Since `G` has order `secpN`, the result
equals multiplication by the scalar reduced modulo `secpN`; the model
reduces explicitly. -/
def ellipticMulG (scalarHex : String) : Point :=
  scalarMul (hexToNat scalarHex % secpN) secpG

/-- Models `ec.curve.point(xHex, yHex)`: hex coordinates, reduced into the
base field. -/
def curvePointFromHex (x y : String) : Point :=
  some (hexToNat x % secpP, hexToNat y % secpP)

/-- `deriveChildPublicKey` of `src/src/kdf/kdf.ts` (= `unnamed/part_008`).
`sha3hex` stands for the js-sha3 `sha3_256` function (hex digest of the
UTF-8 bytes of the input string); the function is pure, so derivation is
deterministic in all arguments.  When the resulting point is the point at
infinity the library's `getX()` throws (the infinity point has no affine
coordinates); this is modelled by the `Except.error` branch. -/
def deriveChildPublicKey (sha3hex : String → String)
    (parentUncompressedPublicKeyHex signerId path : String) :
    Except String String :=
  let scalar := sha3hex (epsilonDerivationTag ++ signerId ++ "," ++ path)
  let x := jsSubstring parentUncompressedPublicKeyHex 2 66
  let y := jsSubstringFrom parentUncompressedPublicKeyHex 66
  let oldPublicKeyPoint := curvePointFromHex x y
  let scalarTimesG := ellipticMulG scalar
  match pointAdd oldPublicKeyPoint scalarTimesG with
  | none => Except.error "point at infinity has no affine coordinates"
  | some (nx, ny) =>
    Except.ok ("04" ++ (padStartZeros 64 (natToHex nx) ++ padStartZeros 64 (natToHex ny)))

/-- The epsilon scalar of the specification: the SHA3-256 digest of the
epsilon string, read big-endian, reduced mod the curve order. -/
def epsilonOf (sha3hex : String → String) (signerId path : String) : Nat :=
  hexToNat (sha3hex (epsilonStr signerId path)) % secpN

/-- Parsing of the `04||X||Y` parent key as `deriveChildPublicKey` slices it. -/
def parsePointHex (parent : String) : Point :=
  curvePointFromHex (jsSubstring parent 2 66) (jsSubstringFrom parent 66)

/-- Uncompressed `04||X||Y` hex serialization with zero-padded coordinates. -/
def serializeUncompressedHex (pt : Nat × Nat) : String :=
  "04" ++ (padStartZeros 64 (natToHex pt.1) ++ padStartZeros 64 (natToHex pt.2))

set_option maxRecDepth 10000

/-- C1: for every secp256k1 root public key, caller id, and canonical path
string, `deriveChildPublicKey` is deterministic (it is a pure function of
its arguments, including the hash function) and returns the uncompressed
serialization of `P + ε·G`, where `ε` is the SHA3-256 digest of the string
"near-mpc-recovery v0.1.0 epsilon derivation:<caller_id>,<path>" read as a
big-endian integer modulo the secp256k1 group order. -/
theorem deriveChildPublicKey_adds_epsilon_times_G
    (sha3hex : String → String) (parent signerId path : String) (pt : Nat × Nat)
    (h : pointAdd (parsePointHex parent)
        (scalarMul (epsilonOf sha3hex signerId path) secpG) = some pt) :
    deriveChildPublicKey sha3hex parent signerId path =
      Except.ok (serializeUncompressedHex pt) := by
  simp only [deriveChildPublicKey, epsilonOf, epsilonStr, ellipticMulG,
    parsePointHex] at h ⊢
  rw [h]
  obtain ⟨nx, ny⟩ := pt
  rfl

/-- A stand-in hash function whose digest is the scalar 1, used to build
concrete derivation witnesses. -/
def sha3one : String → String := fun _ =>
  "0000000000000000000000000000000000000000000000000000000000000001"

/-- The base point `G`, serialized uncompressed. -/
def parentGHex : String :=
  "0479be667ef9dcbbac55a06295ce870b07029bfcdb2dce28d959f2815b16f81798483ada7726a3c4655da4fbfc0e1108a8fd17b448a68554199c47d08ffb10d4b8"

/-- Witness for C1: with digest 1 and parent `G`, derivation returns `2·G`. -/
theorem deriveChildPublicKey_adds_epsilon_times_G_witness :
    deriveChildPublicKey sha3one parentGHex "alice.near" "" =
      Except.ok (serializeUncompressedHex
        (0xc6047f9441ed7d6d3045406e95c07cd85c778e4b8cef3ca7abac09b95c709ee5,
         0x1ae168fea63dc339a3c58419466ceaeef7f632653266d0e1236431a950cfe52a)) :=
  deriveChildPublicKey_adds_epsilon_times_G sha3one parentGHex "alice.near" ""
    _ (by decide)

/-- C6: whenever the derived child point `P + ε·G` is the point at infinity,
`deriveChildPublicKey` rejects (in the source an exception escapes when the
elliptic library serializes the infinity point, which has no affine
coordinates) instead of returning a public key. -/
theorem deriveChildPublicKey_rejects_identity
    (sha3hex : String → String) (parent signerId path : String)
    (h : pointAdd (parsePointHex parent)
        (scalarMul (epsilonOf sha3hex signerId path) secpG) = none) :
    deriveChildPublicKey sha3hex parent signerId path =
      Except.error "point at infinity has no affine coordinates" := by
  simp only [deriveChildPublicKey, epsilonOf, epsilonStr, ellipticMulG,
    parsePointHex] at h ⊢
  rw [h]

/-- The point `-G`, serialized uncompressed. -/
def parentNegGHex : String :=
  "0479be667ef9dcbbac55a06295ce870b07029bfcdb2dce28d959f2815b16f81798b7c52588d95c3b9aa25b0403f1eef75702e84bb7597aabe663b82f6f04ef2777"

/-- Witness for C6: with digest 1 and parent `-G`, the sum is the identity
and derivation rejects. -/
theorem deriveChildPublicKey_rejects_identity_witness :
    deriveChildPublicKey sha3one parentNegGHex "alice.near" "" =
      Except.error "point at infinity has no affine coordinates" :=
  deriveChildPublicKey_rejects_identity sha3one parentNegGHex "alice.near" ""
    (by decide)

/-! ## MPC signature translation (src/src/signature/signature.ts) -/

deriving instance DecidableEq for Except

structure BigR where
  affine_point : String
deriving DecidableEq, Repr

structure SScalar where
  scalar : String
deriving DecidableEq, Repr

/-- The contract-returned signature shape (signature.ts lines 33-41). -/
structure MPCSignature where
  big_r : BigR
  s : SScalar
  recovery_id : Nat
deriving DecidableEq, Repr

structure RSVSignature where
  r : String
  s : String
  v : Nat
deriving DecidableEq, Repr

/-- `toRVS` of signature.ts lines 20-26. -/
def toRVS (signature : MPCSignature) : RSVSignature :=
  { r := jsSubstringFrom signature.big_r.affine_point 2
    s := signature.s.scalar
    v := signature.recovery_id }

theorem jsSubstringFrom_append_of_length (p q : String) (hp : p.length = 2) :
    jsSubstringFrom (p ++ q) 2 = q := by
  cases p with
  | mk l =>
    cases q with
    | mk m =>
      simp only [String.length, List.length] at hp
      apply String.ext
      simp [jsSubstringFrom, String.drop_eq, String.data_append, ← hp,
        List.drop_left]

/-- C4: the conversion of a contract `MPCSignature` to an `RSVSignature`
removes exactly the two leading parity-byte hex characters from
`big_r.affine_point` to obtain `r`, passes `s.scalar` through unchanged,
and uses `recovery_id` as `v`. -/
theorem toRVS_drops_parity_byte (parity rest sc : String) (rid : Nat)
    (hp : parity.length = 2) :
    toRVS ⟨⟨parity ++ rest⟩, ⟨sc⟩, rid⟩ = ⟨rest, sc, rid⟩ := by
  simp [toRVS, jsSubstringFrom_append_of_length parity rest hp]

/-- Witness for C4 at a concrete contract signature. -/
theorem toRVS_drops_parity_byte_witness :
    toRVS ⟨⟨"03" ++ "aabb"⟩, ⟨"ccdd"⟩, 1⟩ = ⟨"aabb", "ccdd", 1⟩ :=
  toRVS_drops_parity_byte "03" "aabb" "ccdd" 1 (by decide)

/-! ## Deposit attached to the contract sign call -/

/-- Deposit computation of `sign` (signature.ts lines 132-142):
`nearAuthentication.deposit ?? BN.max(1, quoted-fee-string || '1')`, where
the quoted fee is `getExperimentalSignatureDeposit`'s stringified `u128`
(`none` models `undefined`). -/
def signDeposit (proposedDeposit quotedFee : Option Nat) : Nat :=
  match proposedDeposit with
  | some d => d
  | none => max 1 (quotedFee.getD 1)

/-- Deposit computation of `ChainSignaturesContract.sign`
(unnamed/part_009 lines 204-210):
`nearAuthentication.deposit ?? getCurrentFee(...) ?? new BN(1)`. -/
def contractSignDeposit (proposedDeposit quotedFee : Option Nat) : Nat :=
  match proposedDeposit with
  | some d => d
  | none =>
    match quotedFee with
    | some f => f
    | none => 1

/-- Counterexample for C5: in `ChainSignaturesContract.sign`, with no
proposed deposit and a quoted fee of 0, the attached deposit is 0 — less
than the 1 the claim guarantees and different from `max(1, fee) = 1`. -/
theorem contractSignDeposit_zero_fee_counterexample :
    contractSignDeposit none (some 0) = 0 ∧
      contractSignDeposit none (some 0) < 1 ∧
      contractSignDeposit none (some 0) ≠ signDeposit none (some 0) := by
  decide

/-- C5 (amended): a proposed deposit is always attached verbatim.  With no
proposed deposit, `sign` of signature.ts attaches `max(1, quoted fee)`
(1 when the quote is unavailable), hence never less than 1; but
`ChainSignaturesContract.sign` of unnamed/part_009 attaches the quoted fee
itself — even a fee of 0 — and falls back to 1 only when the quote is
unavailable. -/
theorem sign_deposit_amended :
    (∀ d quoted, signDeposit (some d) quoted = d ∧
      contractSignDeposit (some d) quoted = d) ∧
    (∀ fee, signDeposit none (some fee) = max 1 fee) ∧
    signDeposit none none = 1 ∧
    (∀ quoted, 1 ≤ signDeposit none quoted) ∧
    (∀ fee, contractSignDeposit none (some fee) = fee) ∧
    contractSignDeposit none none = 1 := by
  refine ⟨fun d quoted => ⟨rfl, rfl⟩, fun fee => rfl, rfl, ?_, fun fee => rfl, rfl⟩
  intro quoted
  cases quoted with
  | none => simp [signDeposit]
  | some f => simp [signDeposit]

/-! ## Receipt scanning for the relayed sign (signature.ts lines 189-215) -/

/-- Base64 value of one character; the Node decoder also accepts the
url-safe alphabet.  `none` marks characters outside the alphabet, which
Node's forgiving decoder skips. -/
def b64Val (c : Char) : Option Nat :=
  if 'A' ≤ c ∧ c ≤ 'Z' then some (c.toNat - 'A'.toNat)
  else if 'a' ≤ c ∧ c ≤ 'z' then some (c.toNat - 'a'.toNat + 26)
  else if '0' ≤ c ∧ c ≤ '9' then some (c.toNat - '0'.toNat + 52)
  else if c = '+' ∨ c = '-' then some 62
  else if c = '/' ∨ c = '_' then some 63
  else none

/-- The sextet stream of a base64 string: characters up to the first
padding `'='`, others outside the alphabet skipped (Node semantics). -/
def b64Sextets (s : String) : List Nat :=
  (s.data.takeWhile (fun c => c ≠ '=')).filterMap b64Val

/-- Reassemble sextets into bytes, four at a time; a trailing group of 2 or
3 sextets yields 1 or 2 bytes, a lone trailing sextet yields nothing
(`Buffer.from('A', 'base64')` is empty). -/
def b64Group : List Nat → List Nat
  | [] => []
  | [_] => []
  | [a, b] => [a * 4 + b / 16]
  | [a, b, c] => [a * 4 + b / 16, b % 16 * 16 + c / 4]
  | a :: b :: c :: d :: rest =>
    (a * 4 + b / 16) :: (b % 16 * 16 + c / 4) :: (c % 4 * 64 + d) :: b64Group rest

/-- Models Node `Buffer.from(s, 'base64')`. -/
def b64DecodeBytes (s : String) : List Nat := b64Group (b64Sextets s)

/-- Models `buffer.toString('utf-8')` one byte per character; exact on the
ASCII payloads the contract returns. -/
def bytesToStr (bs : List Nat) : String := String.mk (bs.map Char.ofNat)

def b64DecodeUtf8 (s : String) : String := bytesToStr (b64DecodeBytes s)

/-- An execution outcome status: an object with a `SuccessValue` field, or
anything else (failure object, `'Unknown'` string, empty field). -/
inductive OutcomeStatus where
  | successValue (v : String)
  | nonSuccess
deriving DecidableEq, Repr

structure ReceiptOutcome where
  status : OutcomeStatus
deriving DecidableEq, Repr

/-- The string a single receipt contributes to the reduce of signature.ts
lines 189-204: the base64-decoded `SuccessValue` when the status is an
object with a non-empty (truthy) `SuccessValue`, `''` otherwise; a decoded
empty string is also `''` via the trailing `|| ''`. -/
def decodedSuccessValue (st : OutcomeStatus) : String :=
  match st with
  | .successValue v => if v = "" then "" else b64DecodeUtf8 v
  | .nonSuccess => ""

/-- One step of the `receipts_outcome.reduce` accumulator. -/
def receiptReduceStep (acc : String) (curr : ReceiptOutcome) : String :=
  if acc ≠ "" then acc else decodedSuccessValue curr.status

/-- The reduce over `receipts_outcome` (initial accumulator `''`). -/
def extractSignatureStr (receipts : List ReceiptOutcome) : String :=
  receipts.foldl receiptReduceStep ""

/-- The tail of the relayed `sign` (signature.ts lines 189-215):
`jsonParseOk` models `JSON.parse(x).Ok` (`none` models a parse throw or a
missing `Ok` field, both of which end in the thrown signature error). -/
def signRelayedResult (jsonParseOk : String → Option MPCSignature)
    (receipts : List ReceiptOutcome) : Except String RSVSignature :=
  let signature := extractSignatureStr receipts
  if signature = "" then Except.error "Signature error, please retry"
  else
    match jsonParseOk signature with
    | some sig => Except.ok (toRVS sig)
    | none => Except.error "Signature error, please retry"

/-- The receipt-parsing rule as the claim words it: the first receipt whose
status is an object with a non-empty `SuccessValue` wins and all later
receipts are ignored. -/
def claimSignRelayedResult (jsonParseOk : String → Option MPCSignature)
    (receipts : List ReceiptOutcome) : Except String RSVSignature :=
  match receipts.find? (fun r =>
      match r.status with
      | .successValue v => v ≠ ""
      | .nonSuccess => false) with
  | some r =>
    match jsonParseOk (decodedSuccessValue r.status) with
    | some sig => Except.ok (toRVS sig)
    | none => Except.error "Signature error, please retry"
  | none => Except.error "Signature error, please retry"

theorem foldl_receiptReduceStep_of_ne (receipts : List ReceiptOutcome)
    (acc : String) (h : acc ≠ "") :
    receipts.foldl receiptReduceStep acc = acc := by
  induction receipts with
  | nil => rfl
  | cons r rs ih => simp [receiptReduceStep, h, ih]

theorem extractSignatureStr_eq_find (receipts : List ReceiptOutcome) :
    extractSignatureStr receipts =
      ((receipts.find? (fun r => decodedSuccessValue r.status ≠ "")).map
        (fun r => decodedSuccessValue r.status)).getD "" := by
  induction receipts with
  | nil => rfl
  | cons r rs ih =>
    by_cases h : decodedSuccessValue r.status = ""
    · simp [extractSignatureStr, List.find?, receiptReduceStep, h] at ih ⊢
      exact ih
    · simp [extractSignatureStr, List.find?, receiptReduceStep, h]
      exact foldl_receiptReduceStep_of_ne rs _ h

/-- C3 (amended): the relayed sign scans `receipts_outcome` in order and
returns the signature parsed from the first receipt whose `SuccessValue`
base64-decodes to a NON-EMPTY string; a receipt whose non-empty
`SuccessValue` decodes to the empty string is skipped, not taken.  If no
receipt decodes non-empty, or the winning receipt's JSON does not parse to
an `Ok` signature, the sign fails with the terminal signature error. -/
theorem signRelayedResult_first_nonempty_decode
    (jsonParseOk : String → Option MPCSignature)
    (receipts : List ReceiptOutcome) :
    signRelayedResult jsonParseOk receipts =
      match receipts.find? (fun r => decodedSuccessValue r.status ≠ "") with
      | some r =>
        match jsonParseOk (decodedSuccessValue r.status) with
        | some sig => Except.ok (toRVS sig)
        | none => Except.error "Signature error, please retry"
      | none => Except.error "Signature error, please retry" := by
  simp only [signRelayedResult, extractSignatureStr_eq_find]
  cases hfind : receipts.find? (fun r => decodedSuccessValue r.status ≠ "") with
  | none => simp
  | some r =>
    have hr := List.find?_some hfind
    simp only [ne_eq, decide_not, Bool.not_eq_true', decide_eq_false_iff_not] at hr
    simp [hr]

def mpcSigC : MPCSignature := ⟨⟨"03aa"⟩, ⟨"bb"⟩, 1⟩

/-- The JSON text `{"Ok":{"big_r":{"affine_point":"03aa"},"s":{"scalar":"bb"},"recovery_id":1}}`. -/
def jsonOkText : String :=
  "\x7b\"Ok\":\x7b\"big_r\":\x7b\"affine_point\":\"03aa\"\x7d,\"s\":\x7b\"scalar\":\"bb\"\x7d,\"recovery_id\":1\x7d\x7d"

/-- A concrete stand-in for `JSON.parse(·).Ok`, agreeing with the real
parser on every string it is applied to in the counterexample. -/
def jsonParseOkC : String → Option MPCSignature := fun s =>
  if s = jsonOkText then some mpcSigC else none

/-- Base64 of `jsonOkText`. -/
def b64OkC : String :=
  "eyJPayI6eyJiaWdfciI6eyJhZmZpbmVfcG9pbnQiOiIwM2FhIn0sInMiOnsic2NhbGFyIjoiYmIifSwicmVjb3ZlcnlfaWQiOjF9fQ=="

/-- Counterexample for C3: the first receipt has the non-empty
`SuccessValue` `"A"`, which base64-decodes to zero bytes.  The claim says
this first receipt wins and later receipts are ignored (so the sign fails);
the code skips it and returns the signature of the second receipt. -/
theorem signRelayedResult_counterexample :
    b64DecodeUtf8 "A" = "" ∧
    signRelayedResult jsonParseOkC
        [⟨.successValue "A"⟩, ⟨.successValue b64OkC⟩] =
      Except.ok ⟨"aa", "bb", 1⟩ ∧
    claimSignRelayedResult jsonParseOkC
        [⟨.successValue "A"⟩, ⟨.successValue b64OkC⟩] =
      Except.error "Signature error, please retry" := by
  decide

/-! ## Cosmos fee computation (unnamed/part_014, src/src/chains/Cosmos/Cosmos.ts) -/

/-- JS `data.gas || 200_000` (part_014 line 153, Cosmos.ts lines 110 and
420): a missing gas — but also a supplied gas of 0, which is falsy — falls
back to 200000. -/
def cosmosGasLimit (gas : Option Nat) : Nat :=
  match gas with
  | some g => if g = 0 then 200000 else g
  | none => 200000

/-- The atomics scale of a cosmjs `Decimal` gas price (18 fractional
digits); `GasPrice.fromString "0.025uatom"` has `25 * 10^15` atomics. -/
def gasPriceScale : Nat := 1000000000000000000

/-- Models cosmjs `calculateFee`'s amount:
`gasPrice.amount.multiply(gasLimit).ceil()` on the atomics representation. -/
def calculateFeeAmount (priceAtomics gasLimit : Nat) : Nat :=
  (priceAtomics * gasLimit + (gasPriceScale - 1)) / gasPriceScale

structure StdFeeCoin where
  denom : String
  amount : String
deriving DecidableEq, Repr

structure StdFee where
  amount : List StdFeeCoin
  gas : String
deriving DecidableEq, Repr

/-- The fee built by `Cosmos.getMPCPayloadAndTransaction` (part_014 lines
150-157): `calculateFee(gas || 200000, GasPrice.fromString(gasPrice+denom))`. -/
def getMPCFee (gas : Option Nat) (priceAtomics : Nat) (denom : String) : StdFee :=
  { amount := [⟨denom, toString (calculateFeeAmount priceAtomics (cosmosGasLimit gas))⟩]
    gas := toString (cosmosGasLimit gas) }

/-- The fee amount built by `Cosmos.handleTransaction` (Cosmos.ts lines
419-430): `feeAmount = gasPrice * gasLimit` with NO ceiling; the JS float
product is modelled exactly, in atomics at `gasPriceScale`. -/
def handleTransactionFeeAtomics (priceAtomics : Nat) (gas : Option Nat) : Nat :=
  priceAtomics * cosmosGasLimit gas

/-- Counterexample for C7.  First, a supplied gas of 0 is falsy in JS, so
the gas limit becomes 200000, not the supplied 0.  Second,
`handleTransaction` does not ceil: at gas price 0.025 and gas 100 the code
computes amount 2.5 (25*10^17 atomics), while the claimed
`ceil(0.025 * 100) = 3` is 3*10^18 atomics. -/
theorem cosmosFee_counterexample :
    cosmosGasLimit (some 0) = 200000 ∧
    cosmosGasLimit (some 0) ≠ 0 ∧
    (getMPCFee (some 0) (25 * 1000000000000000) "uatom").gas = "200000" ∧
    calculateFeeAmount (25 * 1000000000000000) 100 = 3 ∧
    handleTransactionFeeAtomics (25 * 1000000000000000) (some 100) =
      25 * 100000000000000000 ∧
    handleTransactionFeeAtomics (25 * 1000000000000000) (some 100) ≠
      calculateFeeAmount (25 * 1000000000000000) 100 * gasPriceScale := by
  decide

/-- C7 (amended): the gas limit is the request's gas when supplied and
non-zero, and 200000 when absent — or when a zero gas is supplied, since
`gas || 200_000` treats 0 as falsy.  `getMPCPayloadAndTransaction` ceils
the fee amount (`calculateFee`): the amount is the least integer at or
above `gas_price · gas_limit`; `handleTransaction` of Cosmos.ts multiplies
without ceiling.  On the concrete vector (0.025uatom, gas 200000) both give
`[{denom: "uatom", amount: "5000"}]` with fee gas "200000". -/
theorem cosmosFee_amended :
    (∀ g, g ≠ 0 → cosmosGasLimit (some g) = g) ∧
    cosmosGasLimit none = 200000 ∧
    cosmosGasLimit (some 0) = 200000 ∧
    (∀ p L, p * L ≤ calculateFeeAmount p L * gasPriceScale ∧
      calculateFeeAmount p L * gasPriceScale < p * L + gasPriceScale) ∧
    (∀ p gas, handleTransactionFeeAtomics p gas = p * cosmosGasLimit gas) ∧
    getMPCFee (some 200000) (25 * 1000000000000000) "uatom" =
      ⟨[⟨"uatom", "5000"⟩], "200000"⟩ := by
  refine ⟨fun g hg => by simp [cosmosGasLimit, hg], rfl, rfl, ?_,
    fun p gas => rfl, by decide⟩
  intro p L
  have h1 := Nat.div_add_mod (p * L + (gasPriceScale - 1)) gasPriceScale
  have h2 : (p * L + (gasPriceScale - 1)) % gasPriceScale < gasPriceScale :=
    Nat.mod_lt _ (by decide)
  simp only [calculateFeeAmount, gasPriceScale] at *
  omega

/-- Witness for C7 (amended) at gas 300000 and the 0.025uatom price. -/
theorem cosmosFee_amended_witness :
    cosmosGasLimit (some 300000) = 300000 ∧
    25 * 1000000000000000 * 200000 ≤
      calculateFeeAmount (25 * 1000000000000000) 200000 * gasPriceScale :=
  ⟨cosmosFee_amended.1 300000 (by decide),
   (cosmosFee_amended.2.2.2.1 (25 * 1000000000000000) 200000).1⟩

/-! ## Bitcoin assembler (src/src/chains/Bitcoin/Bitcoin.ts) -/

/-- Whether a character is a hexadecimal digit. -/
def hexDigitB (c : Char) : Bool :=
  ('0' ≤ c ∧ c ≤ '9') ∨ ('a' ≤ c ∧ c ≤ 'f') ∨ ('A' ≤ c ∧ c ≤ 'F')

/-- Node `Buffer.from(hex, 'hex')`: decode two-character groups, stopping
at the first invalid pair or at an odd-length tail. -/
def hexBytesAux : List Char → List Nat
  | a :: b :: rest =>
    if hexDigitB a && hexDigitB b then (hexVal a * 16 + hexVal b) :: hexBytesAux rest
    else []
  | _ => []

def hexToBytes (s : String) : List Nat := hexBytesAux s.data

/-- `Bitcoin.parseRSVSignature` (Bitcoin.ts lines 92-103): left-pad `r` and
`s` with `'0'` to 64 hex characters each, concatenate and hex-decode; any
resulting length other than 64 bytes raises
`Invalid signature length.`. -/
def parseRSVSignature (signature : RSVSignature) : Except String (List Nat) :=
  let r := padStartZeros 64 signature.r
  let s := padStartZeros 64 signature.s
  let rawSignature := hexToBytes (r ++ s)
  if rawSignature.length ≠ 64 then Except.error "Invalid signature length."
  else Except.ok rawSignature

/-- bitcoinjs `toDER` on one 32-byte half: strip leading zero bytes (keep a
single zero for the zero value) and prepend `0x00` when the top bit is
set. -/
def toDERBytes (x : List Nat) : List Nat :=
  match x.dropWhile (fun b => b == 0) with
  | [] => [0]
  | b :: rest => if 128 ≤ b then 0 :: b :: rest else b :: rest

/-- bip66 `encode`: `0x30 len 0x02 lenR R 0x02 lenS S`. -/
def bip66Encode (r s : List Nat) : List Nat :=
  [0x30, r.length + s.length + 4, 0x02, r.length] ++ r ++ [0x02, s.length] ++ s

/-- Models bitcoinjs-lib PSBT finalization of one P2WPKH input: the witness
stack is the DER-encoded signature with the SIGHASH_ALL byte (0x01)
appended, followed by the compressed public key.  The raw 64-byte
signature is split into its r half and its s half; neither half is
normalized in any way. -/
def finalizeWitness (raw64 : List Nat) (pubkey : List Nat) : List (List Nat) :=
  [bip66Encode (toDERBytes (raw64.take 32)) (toDERBytes (raw64.drop 32)) ++ [1],
   pubkey]

/-- Big-endian byte list to natural number. -/
def bytesToNatBE (bs : List Nat) : Nat :=
  bs.foldl (fun acc b => acc * 256 + b) 0

/-- The curve order minus one: a maximally high (non-low-S) `s` scalar. -/
def sHighHex : String :=
  "fffffffffffffffffffffffffffffffebaaedce6af48a03bbfd25e8cd0364140"

/-- The raw signature bytes the assembler builds from r = 1, s = n - 1. -/
def rawHighS : List Nat := hexToBytes (padStartZeros 64 "01" ++ sHighHex)

/-- Counterexample for C9: an MPC signature with s = n - 1 (high-S) is
accepted by `parseRSVSignature`, its s half is carried into the DER witness
unchanged, and 2·s > n — so no low-S normalization is enforced anywhere in
the assembler. -/
theorem bitcoin_lowS_counterexample :
    parseRSVSignature ⟨"01", sHighHex, 0⟩ = Except.ok rawHighS ∧
    bytesToNatBE (rawHighS.drop 32) = secpN - 1 ∧
    secpN < 2 * bytesToNatBE (rawHighS.drop 32) ∧
    finalizeWitness rawHighS [2] =
      [bip66Encode (toDERBytes (rawHighS.take 32))
        (0 :: rawHighS.drop 32) ++ [1], [2]] := by
  decide

/-- C9 (amended): r and s are each left-padded with hex zeros to 32 bytes
and concatenated into a raw 64-byte signature, any other resulting length
raises an error, and the finalized witness carries that signature
DER-encoded with the SIGHASH_ALL byte appended; s is carried through
UNCHANGED — the assembler performs no low-S normalization. -/
theorem bitcoin_signature_encoding_amended :
    (∀ (sig : RSVSignature) (raw : List Nat),
      parseRSVSignature sig = Except.ok raw →
        raw = hexToBytes (padStartZeros 64 sig.r ++ padStartZeros 64 sig.s) ∧
        raw.length = 64) ∧
    (∀ sig : RSVSignature,
      (hexToBytes (padStartZeros 64 sig.r ++ padStartZeros 64 sig.s)).length ≠ 64 →
        parseRSVSignature sig = Except.error "Invalid signature length.") ∧
    (∀ (raw64 pubkey : List Nat),
      finalizeWitness raw64 pubkey =
        [bip66Encode (toDERBytes (raw64.take 32)) (toDERBytes (raw64.drop 32)) ++ [1],
         pubkey]) := by
  refine ⟨?_, ?_, fun raw64 pubkey => rfl⟩
  · intro sig raw h
    simp only [parseRSVSignature] at h
    split at h
    · exact absurd h (by simp)
    · rename_i hlen
      simp only [Except.ok.injEq] at h
      subst h
      exact ⟨rfl, by omega⟩
  · intro sig hlen
    simp [parseRSVSignature, hlen]

/-- Witness for C9 (amended) at a concrete signature. -/
theorem bitcoin_signature_encoding_amended_witness :
    hexToBytes (padStartZeros 64 "01" ++ padStartZeros 64 "02") =
      hexToBytes (padStartZeros 64 "01" ++ padStartZeros 64 "02") ∧
    (hexToBytes (padStartZeros 64 "01" ++ padStartZeros 64 "02")).length = 64 :=
  bitcoin_signature_encoding_amended.1 ⟨"01", "02", 0⟩ _ (by decide)

/-- Insertion step of the index sort. -/
def insertByIdx {α : Type} (x : Nat × α) : List (Nat × α) → List (Nat × α)
  | [] => [x]
  | y :: ys => if x.1 ≤ y.1 then x :: y :: ys else y :: insertByIdx x ys

/-- Models the JS `payloads.sort((a, b) => a.index - b.index)` of
Bitcoin.ts line 276: a comparison sort by ascending index. -/
def sortByIdx {α : Type} (l : List (Nat × α)) : List (Nat × α) :=
  l.foldr insertByIdx []

/-- `Bitcoin.getMPCPayloadAndTransaction` payload extraction (Bitcoin.ts
lines 241-278): the mock signer pushes `(index, sighash index)` for input
index 0, 1, ..., k-1 in the ascending signing loop, and the collected list
is then sorted by ascending index.  `sighashes` abstracts the per-input
BIP-143 sighashes computed by the PSBT library. -/
def getMPCPayloadsBTC (sighashes : List (List Nat)) : List (Nat × List Nat) :=
  sortByIdx sighashes.enum

/-- `Bitcoin.addSignatureAndBroadcast` signing loop (Bitcoin.ts lines
280-299): input `index` is signed with `mpcSignatures[index]`
(`none` models the `undefined` access past the end of the list). -/
def addSignaturesBTC (numInputs : Nat) (mpcSignatures : List MPCSignature) :
    List (Option (Except String (List Nat))) :=
  (List.range numInputs).map fun index =>
    (mpcSignatures.get? index).map fun sig => parseRSVSignature (toRVS sig)

theorem sortByIdx_enumFrom {α : Type} (n : Nat) (l : List α) :
    sortByIdx (List.enumFrom n l) = List.enumFrom n l := by
  induction l generalizing n with
  | nil => rfl
  | cons a l ih =>
    have h := ih (n + 1)
    simp only [List.enumFrom, sortByIdx, List.foldr] at h ⊢
    rw [h]
    cases l with
    | nil => rfl
    | cons b l' => simp [insertByIdx]

theorem enumFrom_pairwise_le {α : Type} (n : Nat) (l : List α) :
    (List.enumFrom n l).Pairwise (fun a b => a.1 ≤ b.1) := by
  induction l generalizing n with
  | nil => exact List.Pairwise.nil
  | cons a l ih =>
    refine List.Pairwise.cons ?_ (ih (n + 1))
    intro x hx
    obtain ⟨i, v⟩ := x
    have h2 := List.mk_mem_enumFrom_iff_le_and_getElem?_sub.mp hx
    omega

/-- C8: for a PSBT with k inputs the payload list is exactly the
enumeration of the k per-input sighashes — k payloads, ascending in index,
the payload at index i being the sighash of input i — and the assembler
puts signature i of the signature list into input i, independently of the
order in which the per-input sign results were produced. -/
theorem bitcoin_payload_index_invariant
    (sighashes : List (List Nat)) (sigs : List MPCSignature) :
    getMPCPayloadsBTC sighashes = sighashes.enum ∧
    (getMPCPayloadsBTC sighashes).length = sighashes.length ∧
    (getMPCPayloadsBTC sighashes).Pairwise (fun a b => a.1 ≤ b.1) ∧
    (∀ (i : Nat) (x : List Nat), sighashes[i]? = some x →
      (getMPCPayloadsBTC sighashes)[i]? = some (i, x)) ∧
    (∀ i, i < sighashes.length →
      (addSignaturesBTC sighashes.length sigs)[i]? =
        some ((sigs[i]?).map fun sig => parseRSVSignature (toRVS sig))) := by
  have hsort : getMPCPayloadsBTC sighashes = sighashes.enum :=
    sortByIdx_enumFrom 0 sighashes
  refine ⟨hsort, by rw [hsort]; simp [List.enum_length], ?_, ?_, ?_⟩
  · rw [hsort]
    exact enumFrom_pairwise_le 0 sighashes
  · intro i x hx
    rw [hsort]
    simp [List.getElem?_enum, hx]
  · intro i hi
    simp [addSignaturesBTC, List.getElem?_map, List.getElem?_range hi]

/-- Witness for C8 at two concrete inputs and signatures. -/
theorem bitcoin_payload_index_invariant_witness :
    getMPCPayloadsBTC [[17], [42]] = [(0, [17]), (1, [42])] ∧
    (addSignaturesBTC 2 [⟨⟨"02aa"⟩, ⟨"01"⟩, 0⟩, ⟨⟨"03bb"⟩, ⟨"02"⟩, 1⟩])[1]? =
      some (some (parseRSVSignature (toRVS ⟨⟨"03bb"⟩, ⟨"02"⟩, 1⟩))) := by
  have h := bitcoin_payload_index_invariant [[17], [42]]
    [⟨⟨"02aa"⟩, ⟨"01"⟩, 0⟩, ⟨⟨"03bb"⟩, ⟨"02"⟩, 1⟩]
  refine ⟨h.1.trans (by decide), (h.2.2.2.2 1 (by decide)).trans (by decide)⟩

/-! ## Bitcoin UTXO fetching and fee properties (src/src/chains/Bitcoin/utils.ts) -/

structure UTXO where
  txid : String
  vout : Nat
  value : Nat
deriving DecidableEq, Repr

structure BTCOutput where
  address : Option String
  value : Nat
deriving DecidableEq, Repr

structure BTCFeeRecommendation where
  fastestFee : Nat
  halfHourFee : Nat
  hourFee : Nat
  economyFee : Nat
  minimumFee : Nat
deriving DecidableEq, Repr

/-- `fetchBTCUTXOs` (utils.ts lines 31-49): a provider transport error is
caught, logged, and replaced by the empty list. -/
def fetchBTCUTXOs (providerResp : Except String (List UTXO)) : List UTXO :=
  match providerResp with
  | Except.ok utxos => utxos
  | Except.error _ => []

/-- `fetchBTCFeeRate` (utils.ts lines 146-162): a transport error is NOT
caught and propagates; on success the tier matching the confirmation
target is returned. -/
def fetchBTCFeeRate (providerResp : Except String BTCFeeRecommendation)
    (confirmationTarget : Nat) : Except String Nat :=
  match providerResp with
  | Except.error e => Except.error e
  | Except.ok d =>
    Except.ok
      (if confirmationTarget ≤ 1 then d.fastestFee
       else if confirmationTarget ≤ 3 then d.halfHourFee
       else if confirmationTarget ≤ 6 then d.hourFee
       else d.economyFee)

/-- The error thrown when coinselect returns no inputs/outputs
(utils.ts lines 195-199). -/
def coinselectFailMsg : String :=
  "Invalid transaction: coinselect failed to find a suitable set of inputs and outputs. This could be due to insufficient funds, or no inputs being available that meet the criteria."

/-- `fetchBTCFeeProperties` (utils.ts lines 179-202).  `select` models the
external coinselect library (`none` = no feasible input set, i.e. missing
`inputs`/`outputs` in its result); any faithful instantiation returns
`none` on an empty UTXO list, since with no inputs no positive target and
no positive fee can be funded.  The UTXO fetch swallows its transport
error, but the fee-rate fetch that follows it does not. -/
def fetchBTCFeeProperties
    (select : List UTXO → List BTCOutput → Nat →
      Option (List UTXO × List BTCOutput × Nat))
    (utxoResp : Except String (List UTXO))
    (feeResp : Except String BTCFeeRecommendation)
    (targets : List BTCOutput) (confirmationTarget : Nat) :
    Except String (List UTXO × List BTCOutput × Nat) :=
  let utxos := fetchBTCUTXOs utxoResp
  match fetchBTCFeeRate feeResp confirmationTarget with
  | Except.error e => Except.error e
  | Except.ok feeRate =>
    match select utxos targets (feeRate + 1) with
    | none => Except.error coinselectFailMsg
    | some ret => Except.ok ret

/-- A coinselect instantiation that never finds a selection. -/
def selectNone : List UTXO → List BTCOutput → Nat →
    Option (List UTXO × List BTCOutput × Nat) := fun _ _ _ => none

/-- Counterexample for C10: against a fully unreachable provider both
fetches fail; the UTXO error is swallowed but the fee-rate transport error
propagates out of `fetchBTCFeeProperties`, so the result is the
provider-unreachable error, not the coinselect insufficient-funds error. -/
theorem fetchBTCFeeProperties_counterexample :
    fetchBTCUTXOs (Except.error "connect ECONNREFUSED") = [] ∧
    fetchBTCFeeProperties selectNone (Except.error "connect ECONNREFUSED")
        (Except.error "connect ECONNREFUSED") [⟨none, 1000⟩] 6 =
      Except.error "connect ECONNREFUSED" ∧
    (Except.error "connect ECONNREFUSED" :
        Except String (List UTXO × List BTCOutput × Nat)) ≠
      Except.error coinselectFailMsg := by
  decide

/-- C10 (amended): a UTXO-fetch transport error yields the empty UTXO list
instead of propagating.  When the fee-rate fetch succeeds, coin selection
then runs with no candidates and fails with the coinselect
insufficient-funds error; but when the fee-rate fetch also fails (the
provider being unreachable), its transport error propagates instead. -/
theorem fetchBTCFeeProperties_amended
    (select : List UTXO → List BTCOutput → Nat →
      Option (List UTXO × List BTCOutput × Nat))
    (e : String) (feeRec : BTCFeeRecommendation)
    (targets : List BTCOutput) (confirmationTarget : Nat)
    (hsel : ∀ t fr, select [] t fr = none) :
    fetchBTCUTXOs (Except.error e) = [] ∧
    fetchBTCFeeProperties select (Except.error e) (Except.ok feeRec)
        targets confirmationTarget = Except.error coinselectFailMsg ∧
    (∀ e2, fetchBTCFeeProperties select (Except.error e) (Except.error e2)
        targets confirmationTarget = Except.error e2) := by
  refine ⟨rfl, ?_, fun e2 => rfl⟩
  simp [fetchBTCFeeProperties, fetchBTCUTXOs, fetchBTCFeeRate, hsel]

/-- Witness for C10 (amended) with a concrete unreachable-provider error. -/
theorem fetchBTCFeeProperties_amended_witness :
    fetchBTCUTXOs (Except.error "connect ETIMEDOUT") = [] ∧
    fetchBTCFeeProperties selectNone (Except.error "connect ETIMEDOUT")
        (Except.ok ⟨9, 7, 5, 3, 1⟩) [⟨none, 1000⟩] 6 =
      Except.error coinselectFailMsg :=
  ⟨(fetchBTCFeeProperties_amended selectNone "connect ETIMEDOUT" ⟨9, 7, 5, 3, 1⟩
      [⟨none, 1000⟩] 6 (fun _ _ => rfl)).1,
   (fetchBTCFeeProperties_amended selectNone "connect ETIMEDOUT" ⟨9, 7, 5, 3, 1⟩
      [⟨none, 1000⟩] 6 (fun _ _ => rfl)).2.1⟩

/-! ## RFC 8785 canonicalization of derivation paths (unnamed/part_006)

The `canonicalize` npm package serializes a JSON value with object keys
sorted and no insignificant whitespace.  JSON values are modelled by the
mutual inductive family below; JS `undefined` does not occur in it — the
serializer drops undefined-valued properties before rendering, so a
modelled object holds exactly the defined properties.  Numbers are
modelled as integers (the SLIP-44 chain ids and the metadata the claims
exercise), rendered in decimal as ECMAScript renders safe integers. -/

mutual
inductive Json where
  | null : Json
  | bool (b : Bool) : Json
  | num (n : Int) : Json
  | str (s : String) : Json
  | arr (items : JsonArr) : Json
  | obj (entries : JsonObj) : Json
inductive JsonArr where
  | nil : JsonArr
  | cons (head : Json) (tail : JsonArr) : JsonArr
inductive JsonObj where
  | nil : JsonObj
  | cons (key : String) (value : Json) (tail : JsonObj) : JsonObj
end

/-- JSON string escaping as `JSON.stringify` performs it. -/
def escapeJsonChar (c : Char) : String :=
  if c = '"' then "\\\""
  else if c = '\\' then "\\\\"
  else if c = '\n' then "\\n"
  else if c = '\t' then "\\t"
  else if c = '\r' then "\\r"
  else if c = '\x08' then "\\b"
  else if c = '\x0c' then "\\f"
  else if c.toNat < 32 then
    "\\u00" ++ (if c.toNat < 16 then "0" else "") ++ natToHex c.toNat
  else String.singleton c

def quoteJson (s : String) : String :=
  "\"" ++ s.data.foldl (fun acc c => acc ++ escapeJsonChar c) "" ++ "\""

/-- Lexicographic strict comparison of character lists by code point, as
`Array.prototype.sort()` compares strings. -/
def charListLtB : List Char → List Char → Bool
  | _, [] => false
  | [], _ :: _ => true
  | a :: as, b :: bs =>
    if a.toNat < b.toNat then true
    else if b.toNat < a.toNat then false
    else charListLtB as bs

def strLtB (a b : String) : Bool := charListLtB a.data b.data

def strLeB (a b : String) : Bool := strLtB a b || a == b

theorem char_toNat_inj {a b : Char} (h : a.toNat = b.toNat) : a = b := by
  have h2 := congrArg Char.ofNat h
  simpa using h2

theorem charListLtB_conn (a b : List Char) (h1 : charListLtB a b = false)
    (h2 : charListLtB b a = false) : a = b := by
  induction a generalizing b with
  | nil => cases b with
    | nil => rfl
    | cons c cs => simp [charListLtB] at h1
  | cons a0 as ih =>
    cases b with
    | nil => simp [charListLtB] at h2
    | cons b0 bs =>
      simp only [charListLtB] at h1 h2
      split at h1
      · exact absurd h1 (by simp)
      · split at h1
        · rename_i hlt hgt
          rw [if_pos hgt] at h2
          exact absurd h2 (by simp)
        · rename_i hlt hgt
          rw [if_neg (by omega), if_neg (by omega)] at h2
          have hab : a0 = b0 := char_toNat_inj (by omega)
          rw [hab, ih bs h1 h2]

theorem charListLtB_asymm (a b : List Char) (h : charListLtB a b = true) :
    charListLtB b a = false := by
  induction a generalizing b with
  | nil => cases b with
    | nil => simp [charListLtB] at h
    | cons c cs => simp [charListLtB]
  | cons a0 as ih =>
    cases b with
    | nil => simp [charListLtB] at h
    | cons b0 bs =>
      simp only [charListLtB] at h ⊢
      split at h
      · rename_i hlt
        rw [if_neg (by omega), if_pos (by omega)]
      · split at h
        · exact absurd h (by simp)
        · rename_i hlt hgt
          rw [if_neg (by omega), if_neg (by omega)]
          exact ih bs h

theorem charListLtB_trans (a b c : List Char) (h1 : charListLtB a b = true)
    (h2 : charListLtB b c = true) : charListLtB a c = true := by
  induction a generalizing b c with
  | nil =>
    cases c with
    | nil =>
      cases b with
      | nil => simp [charListLtB] at h1
      | cons b0 bs => simp [charListLtB] at h2
    | cons c0 cs => simp [charListLtB]
  | cons a0 as ih =>
    cases b with
    | nil => simp [charListLtB] at h1
    | cons b0 bs =>
      cases c with
      | nil => simp [charListLtB] at h2
      | cons c0 cs =>
        simp only [charListLtB] at h1 h2 ⊢
        split at h1
        · rename_i hab
          split at h2
          · rename_i hbc
            rw [if_pos (by omega)]
          · split at h2
            · exact absurd h2 (by simp)
            · rename_i hbc hcb
              rw [if_pos (by omega)]
        · split at h1
          · exact absurd h1 (by simp)
          · rename_i hab hba
            split at h2
            · rename_i hbc
              rw [if_pos (by omega)]
            · split at h2
              · exact absurd h2 (by simp)
              · rename_i hbc hcb
                rw [if_neg (by omega), if_neg (by omega)]
                exact ih bs cs h1 h2

theorem strLtB_conn (a b : String) (h1 : strLtB a b = false)
    (h2 : strLtB b a = false) : a = b := by
  cases a with
  | mk la =>
    cases b with
    | mk lb => exact congrArg String.mk (charListLtB_conn la lb h1 h2)

/-- Comparison used to sort rendered object entries: by key, ties broken
by rendered value.  The npm package sorts `Object.keys(o).sort()` — keys
only — and JS object keys are unique, so on well-formed (duplicate-free)
objects the tie-break never fires and this is exactly the key sort. -/
def pairLeB (a b : String × String) : Bool :=
  strLtB a.1 b.1 || (a.1 == b.1 && strLeB a.2 b.2)

def insertPair (x : String × String) :
    List (String × String) → List (String × String)
  | [] => [x]
  | y :: ys => if pairLeB x y then x :: y :: ys else y :: insertPair x ys

/-- Insertion sort of rendered object entries. -/
def sortPairs (l : List (String × String)) : List (String × String) :=
  l.foldr insertPair []

theorem strLtB_irrefl (a : String) : strLtB a a = false := by
  cases h : strLtB a a
  · rfl
  · have h2 := charListLtB_asymm a.data a.data h
    exact absurd h (by simp [strLtB] at h2 ⊢; exact h2)

theorem strLtB_trans (a b c : String) (h1 : strLtB a b = true)
    (h2 : strLtB b c = true) : strLtB a c = true :=
  charListLtB_trans a.data b.data c.data h1 h2

theorem strLeB_conn (a b : String) : strLeB a b = true ∨ strLeB b a = true := by
  cases hab : strLtB a b
  · cases hba : strLtB b a
    · have heq := strLtB_conn a b hab hba
      exact Or.inl (by simp [strLeB, heq])
    · exact Or.inr (by simp [strLeB, hba])
  · exact Or.inl (by simp [strLeB, hab])

theorem strLeB_antisymm (a b : String) (h1 : strLeB a b = true)
    (h2 : strLeB b a = true) : a = b := by
  simp only [strLeB, Bool.or_eq_true, beq_iff_eq] at h1 h2
  rcases h1 with h1 | h1
  · rcases h2 with h2 | h2
    · exact absurd (strLtB_trans a b a h1 h2) (by simp [strLtB_irrefl])
    · exact h2.symm
  · exact h1

theorem strLeB_trans (a b c : String) (h1 : strLeB a b = true)
    (h2 : strLeB b c = true) : strLeB a c = true := by
  simp only [strLeB, Bool.or_eq_true, beq_iff_eq] at h1 h2 ⊢
  rcases h1 with h1 | h1
  · rcases h2 with h2 | h2
    · exact Or.inl (strLtB_trans a b c h1 h2)
    · exact Or.inl (h2 ▸ h1)
  · rcases h2 with h2 | h2
    · exact Or.inl (h1 ▸ h2)
    · exact Or.inr (h1.trans h2)

theorem pairLeB_total (a b : String × String) :
    pairLeB a b = true ∨ pairLeB b a = true := by
  cases hab : strLtB a.1 b.1
  · cases hba : strLtB b.1 a.1
    · have heq := strLtB_conn a.1 b.1 hab hba
      rcases strLeB_conn a.2 b.2 with h2 | h2
      · exact Or.inl (by simp [pairLeB, heq, h2])
      · exact Or.inr (by simp [pairLeB, heq, h2])
    · exact Or.inr (by simp [pairLeB, hba])
  · exact Or.inl (by simp [pairLeB, hab])

theorem pairLeB_antisymm (a b : String × String)
    (hab : pairLeB a b = true) (hba : pairLeB b a = true) : a = b := by
  simp only [pairLeB, Bool.or_eq_true, Bool.and_eq_true, beq_iff_eq] at hab hba
  rcases hab with h1 | ⟨h1, h2⟩
  · rcases hba with h3 | ⟨h3, h4⟩
    · exact absurd (strLtB_trans _ _ _ h1 h3) (by simp [strLtB_irrefl])
    · exact absurd h1 (by simp [h3, strLtB_irrefl])
  · rcases hba with h3 | ⟨h3, h4⟩
    · exact absurd h3 (by simp [h1, strLtB_irrefl])
    · exact Prod.ext h1 (strLeB_antisymm _ _ h2 h4)

instance : IsAntisymm (String × String) (fun a b => pairLeB a b = true) :=
  ⟨pairLeB_antisymm⟩

theorem pairLeB_trans (a b c : String × String)
    (hab : pairLeB a b = true) (hbc : pairLeB b c = true) :
    pairLeB a c = true := by
  simp only [pairLeB, Bool.or_eq_true, Bool.and_eq_true, beq_iff_eq] at hab hbc ⊢
  rcases hab with h1 | ⟨h1, h2⟩
  · rcases hbc with h3 | ⟨h3, h4⟩
    · exact Or.inl (strLtB_trans _ _ _ h1 h3)
    · exact Or.inl (h3 ▸ h1)
  · rcases hbc with h3 | ⟨h3, h4⟩
    · exact Or.inl (h1 ▸ h3)
    · exact Or.inr ⟨h1.trans h3, strLeB_trans _ _ _ h2 h4⟩

theorem insertPair_perm (x : String × String) (l : List (String × String)) :
    List.Perm (insertPair x l) (x :: l) := by
  induction l with
  | nil => exact List.Perm.refl _
  | cons y ys ih =>
    simp only [insertPair]
    split
    · exact List.Perm.refl _
    · exact (List.Perm.cons y ih).trans (List.Perm.swap x y ys)

theorem sortPairs_perm (l : List (String × String)) :
    List.Perm (sortPairs l) l := by
  induction l with
  | nil => exact List.Perm.refl _
  | cons x xs ih =>
    exact (insertPair_perm x (sortPairs xs)).trans (List.Perm.cons x ih)

theorem insertPair_sorted (x : String × String) (l : List (String × String))
    (h : l.Pairwise (fun a b => pairLeB a b = true)) :
    (insertPair x l).Pairwise (fun a b => pairLeB a b = true) := by
  induction l with
  | nil => simp [insertPair]
  | cons y ys ih =>
    simp only [insertPair]
    split
    · rename_i hxy
      refine List.Pairwise.cons ?_ h
      intro z hz
      rcases List.mem_cons.mp hz with rfl | hz
      · exact hxy
      · exact pairLeB_trans x y z hxy (List.rel_of_pairwise_cons h hz)
    · rename_i hxy
      have hyx : pairLeB y x = true := by
        rcases pairLeB_total x y with h1 | h1
        · exact absurd h1 hxy
        · exact h1
      refine List.Pairwise.cons ?_ (ih (List.Pairwise.of_cons h))
      intro z hz
      have hmem := (insertPair_perm x ys).mem_iff.mp hz
      rcases List.mem_cons.mp hmem with rfl | hz2
      · exact hyx
      · exact List.rel_of_pairwise_cons h hz2

theorem sortPairs_sorted (l : List (String × String)) :
    (sortPairs l).Pairwise (fun a b => pairLeB a b = true) := by
  induction l with
  | nil => simp [sortPairs]
  | cons x xs ih => exact insertPair_sorted x (sortPairs xs) ih

theorem sortPairs_eq_of_perm (l1 l2 : List (String × String))
    (h : List.Perm l1 l2) : sortPairs l1 = sortPairs l2 :=
  List.eq_of_perm_of_sorted
    ((sortPairs_perm l1).trans (h.trans (sortPairs_perm l2).symm))
    (sortPairs_sorted l1) (sortPairs_sorted l2)

mutual
/-- Models the `canonicalize` npm package (RFC 8785 serialization):
`null`/booleans/numbers/strings via `JSON.stringify`, arrays in order,
objects with their entries rendered and then emitted sorted by key with
`:` and `,` separators and no whitespace. -/
def canonicalizeJson : Json → String
  | .null => "null"
  | .bool true => "true"
  | .bool false => "false"
  | .num n => toString n
  | .str s => quoteJson s
  | .arr items => "[" ++ canonArrStr items ++ "]"
  | .obj entries =>
    "\x7b" ++ String.intercalate ","
      ((sortPairs (canonObjPairs entries)).map
        (fun kv => quoteJson kv.1 ++ ":" ++ kv.2)) ++ "\x7d"
/-- Comma-joined canonical forms of array items. -/
def canonArrStr : JsonArr → String
  | .nil => ""
  | .cons j .nil => canonicalizeJson j
  | .cons j (.cons j2 tail) =>
    canonicalizeJson j ++ "," ++ canonArrStr (.cons j2 tail)
/-- The object's entries as (key, canonical form of the value) pairs, in
entry order (sorting happens at emission). -/
def canonObjPairs : JsonObj → List (String × String)
  | .nil => []
  | .cons k v tail => (k, canonicalizeJson v) :: canonObjPairs tail
end

/-- First entry with the given key: its value and the remaining object. -/
def removeKey (k : String) : JsonObj → Option (Json × JsonObj)
  | .nil => none
  | .cons k2 v tail =>
    if k = k2 then some (v, tail)
    else (removeKey k tail).map (fun vr => (vr.1, .cons k2 v vr.2))

def objIsEmpty : JsonObj → Bool
  | .nil => true
  | .cons _ _ _ => false

mutual
/-- Structural equality of JSON values up to the order of object entries:
each entry of the left object is matched (by key, recursively on values)
against an entry of the right object, until both are exhausted. -/
def jsonEquiv : Json → Json → Bool
  | .null, .null => true
  | .bool a, .bool b => a == b
  | .num a, .num b => a == b
  | .str a, .str b => a == b
  | .arr a, .arr b => arrEquiv a b
  | .obj a, .obj b => objEquiv a b
  | _, _ => false
def arrEquiv : JsonArr → JsonArr → Bool
  | .nil, .nil => true
  | .cons a as, .cons b bs => jsonEquiv a b && arrEquiv as bs
  | .nil, .cons _ _ => false
  | .cons _ _, .nil => false
def objEquiv : JsonObj → JsonObj → Bool
  | .nil, o => objIsEmpty o
  | .cons k v t, o =>
    match removeKey k o with
    | some vr => jsonEquiv v vr.1 && objEquiv t vr.2
    | none => false
end

def keysOf : JsonObj → List String
  | .nil => []
  | .cons k _ t => k :: keysOf t

mutual
/-- Well-formedness: object keys are duplicate-free at every level (JS
objects cannot carry duplicate keys). -/
def jsonWF : Json → Bool
  | .null => true
  | .bool _ => true
  | .num _ => true
  | .str _ => true
  | .arr a => arrWF a
  | .obj o => objWF o
def arrWF : JsonArr → Bool
  | .nil => true
  | .cons j t => jsonWF j && arrWF t
def objWF : JsonObj → Bool
  | .nil => true
  | .cons k v t => !((keysOf t).contains k) && jsonWF v && objWF t
end

mutual
/-- A size measure for induction over the mutual JSON family. -/
def jsonSize : Json → Nat
  | .null => 1
  | .bool _ => 1
  | .num _ => 1
  | .str _ => 1
  | .arr a => arrSize a + 1
  | .obj o => objSize o + 1
def arrSize : JsonArr → Nat
  | .nil => 1
  | .cons j t => jsonSize j + arrSize t + 1
def objSize : JsonObj → Nat
  | .nil => 1
  | .cons _ v t => jsonSize v + objSize t + 1
end

theorem jsonSize_pos (j : Json) : 1 ≤ jsonSize j := by
  cases j <;> simp [jsonSize]

theorem arrSize_pos (a : JsonArr) : 1 ≤ arrSize a := by
  cases a <;> simp [arrSize]

theorem objSize_pos (o : JsonObj) : 1 ≤ objSize o := by
  cases o <;> simp [objSize]

theorem removeKey_size (k : String) (o : JsonObj) (v2 : Json) (rest : JsonObj)
    (h : removeKey k o = some (v2, rest)) :
    jsonSize v2 + objSize rest < objSize o := by
  match o with
  | .nil => simp [removeKey] at h
  | .cons k2 v t =>
    simp only [removeKey] at h
    split at h
    · simp only [Option.some.injEq, Prod.mk.injEq] at h
      obtain ⟨rfl, rfl⟩ := h
      simp [objSize]
    · cases hrt : removeKey k t with
      | none => simp [hrt] at h
      | some vr =>
        obtain ⟨v2', rest'⟩ := vr
        simp only [hrt, Option.map_some', Option.some.injEq, Prod.mk.injEq] at h
        obtain ⟨rfl, rfl⟩ := h
        have ih := removeKey_size k t v2' rest' hrt
        simp only [objSize] at ih ⊢
        omega

theorem removeKey_pairs_perm (k : String) (o : JsonObj) (v2 : Json)
    (rest : JsonObj) (h : removeKey k o = some (v2, rest)) :
    List.Perm (canonObjPairs o)
      ((k, canonicalizeJson v2) :: canonObjPairs rest) := by
  match o with
  | .nil => simp [removeKey] at h
  | .cons k2 v t =>
    simp only [removeKey] at h
    split at h
    · rename_i heq
      simp only [Option.some.injEq, Prod.mk.injEq] at h
      obtain ⟨rfl, rfl⟩ := h
      subst heq
      exact List.Perm.refl _
    · cases hrt : removeKey k t with
      | none => simp [hrt] at h
      | some vr =>
        obtain ⟨v2', rest'⟩ := vr
        simp only [hrt, Option.map_some', Option.some.injEq, Prod.mk.injEq] at h
        obtain ⟨rfl, rfl⟩ := h
        have ih := removeKey_pairs_perm k t v2' rest' hrt
        simp only [canonObjPairs]
        exact (ih.cons _).trans (List.Perm.swap _ _ _)

theorem removeKey_keys_perm (k : String) (o : JsonObj) (v2 : Json)
    (rest : JsonObj) (h : removeKey k o = some (v2, rest)) :
    List.Perm (keysOf o) (k :: keysOf rest) := by
  match o with
  | .nil => simp [removeKey] at h
  | .cons k2 v t =>
    simp only [removeKey] at h
    split at h
    · rename_i heq
      simp only [Option.some.injEq, Prod.mk.injEq] at h
      obtain ⟨rfl, rfl⟩ := h
      subst heq
      exact List.Perm.refl _
    · cases hrt : removeKey k t with
      | none => simp [hrt] at h
      | some vr =>
        obtain ⟨v2', rest'⟩ := vr
        simp only [hrt, Option.map_some', Option.some.injEq, Prod.mk.injEq] at h
        obtain ⟨rfl, rfl⟩ := h
        have ih := removeKey_keys_perm k t v2' rest' hrt
        simp only [keysOf]
        exact (ih.cons _).trans (List.Perm.swap _ _ _)

theorem removeKey_wf (k : String) (o : JsonObj) (v2 : Json) (rest : JsonObj)
    (hwf : objWF o = true) (h : removeKey k o = some (v2, rest)) :
    jsonWF v2 = true ∧ objWF rest = true := by
  match o with
  | .nil => simp [removeKey] at h
  | .cons k2 v t =>
    simp only [objWF, Bool.and_eq_true, Bool.not_eq_true'] at hwf
    obtain ⟨⟨hk2, hv⟩, ht⟩ := hwf
    simp only [removeKey] at h
    split at h
    · simp only [Option.some.injEq, Prod.mk.injEq] at h
      obtain ⟨rfl, rfl⟩ := h
      exact ⟨hv, ht⟩
    · rename_i hne
      cases hrt : removeKey k t with
      | none => simp [hrt] at h
      | some vr =>
        obtain ⟨v2', rest'⟩ := vr
        simp only [hrt, Option.map_some', Option.some.injEq, Prod.mk.injEq] at h
        obtain ⟨rfl, rfl⟩ := h
        have ih := removeKey_wf k t v2' rest' ht hrt
        have hkeys := removeKey_keys_perm k t v2' rest' hrt
        refine ⟨ih.1, ?_⟩
        simp only [objWF, Bool.and_eq_true, Bool.not_eq_true']
        refine ⟨⟨?_, hv⟩, ih.2⟩
        by_contra hc
        simp only [Bool.not_eq_false, List.contains, List.elem_eq_mem,
          decide_eq_true_eq] at hc
        have : k2 ∈ keysOf t := hkeys.mem_iff.mpr (List.mem_cons.mpr (Or.inr hc))
        simp [List.contains, List.elem_eq_mem, this] at hk2

theorem canonEquiv_aux (n : Nat) :
    (∀ j1 j2, jsonSize j1 ≤ n → jsonWF j1 = true → jsonWF j2 = true →
      jsonEquiv j1 j2 = true → canonicalizeJson j1 = canonicalizeJson j2) ∧
    (∀ a1 a2, arrSize a1 ≤ n → arrWF a1 = true → arrWF a2 = true →
      arrEquiv a1 a2 = true → canonArrStr a1 = canonArrStr a2) ∧
    (∀ o1 o2, objSize o1 ≤ n → objWF o1 = true → objWF o2 = true →
      objEquiv o1 o2 = true →
      List.Perm (canonObjPairs o1) (canonObjPairs o2)) := by
  induction n with
  | zero =>
    refine ⟨fun j1 _ hsz _ _ _ => ?_, fun a1 _ hsz _ _ _ => ?_,
      fun o1 _ hsz _ _ _ => ?_⟩
    · exact absurd hsz (by have := jsonSize_pos j1; omega)
    · exact absurd hsz (by have := arrSize_pos a1; omega)
    · exact absurd hsz (by have := objSize_pos o1; omega)
  | succ n ih =>
    obtain ⟨ihj, iha, iho⟩ := ih
    refine ⟨?_, ?_, ?_⟩
    · intro j1 j2 hsz h1 h2 he
      cases j1 <;> cases j2 <;> simp only [jsonEquiv] at he <;>
        try (exact Bool.noConfusion he)
      case null.null => rfl
      case bool.bool a b =>
        simp only [beq_iff_eq] at he
        subst he
        rfl
      case num.num a b =>
        simp only [beq_iff_eq] at he
        subst he
        rfl
      case str.str a b =>
        simp only [beq_iff_eq] at he
        subst he
        rfl
      case arr.arr a b =>
        simp only [jsonSize] at hsz
        simp only [jsonWF] at h1 h2
        simp only [canonicalizeJson]
        rw [iha a b (by omega) h1 h2 he]
      case obj.obj o1 o2 =>
        simp only [jsonSize] at hsz
        simp only [jsonWF] at h1 h2
        simp only [canonicalizeJson]
        rw [sortPairs_eq_of_perm _ _ (iho o1 o2 (by omega) h1 h2 he)]
    · intro a1 a2 hsz h1 h2 he
      cases a1 with
      | nil =>
        cases a2 with
        | nil => rfl
        | cons b bs => simp [arrEquiv] at he
      | cons a as =>
        cases a2 with
        | nil => simp [arrEquiv] at he
        | cons b bs =>
          simp only [arrEquiv, Bool.and_eq_true] at he
          obtain ⟨hej, hea⟩ := he
          simp only [arrSize] at hsz
          simp only [arrWF, Bool.and_eq_true] at h1 h2
          have hja := jsonSize_pos a
          have hjb := arrSize_pos as
          cases as with
          | nil =>
            cases bs with
            | nil =>
              simp only [canonArrStr]
              exact ihj a b (by omega) h1.1 h2.1 hej
            | cons b2 bs2 => simp [arrEquiv] at hea
          | cons a2 as2 =>
            cases bs with
            | nil => simp [arrEquiv] at hea
            | cons b2 bs2 =>
              simp only [canonArrStr]
              rw [ihj a b (by omega) h1.1 h2.1 hej,
                iha (.cons a2 as2) (.cons b2 bs2) (by simp only [arrSize] at *; omega)
                  h1.2 h2.2 hea]
    · intro o1 o2 hsz h1 h2 he
      cases o1 with
      | nil =>
        cases o2 with
        | nil => exact List.Perm.refl _
        | cons k2 v2 t2 => simp [objEquiv, objIsEmpty] at he
      | cons k v t =>
        simp only [objEquiv] at he
        cases hrk : removeKey k o2 with
        | none => rw [hrk] at he; simp at he
        | some vr =>
          obtain ⟨v2, rest⟩ := vr
          rw [hrk] at he
          simp only [Bool.and_eq_true] at he
          obtain ⟨hev, het⟩ := he
          simp only [objSize] at hsz
          simp only [objWF, Bool.and_eq_true] at h1
          obtain ⟨⟨_, hv⟩, ht⟩ := h1
          have hwf2 := removeKey_wf k o2 v2 rest h2 hrk
          have hv2 := jsonSize_pos v
          have ht2 := objSize_pos t
          have hcanon : canonicalizeJson v = canonicalizeJson v2 :=
            ihj v v2 (by omega) hv hwf2.1 hev
          have hperm : List.Perm (canonObjPairs t) (canonObjPairs rest) :=
            iho t rest (by omega) ht hwf2.2 het
          have hsplit := removeKey_pairs_perm k o2 v2 rest hrk
          simp only [canonObjPairs]
          rw [hcanon]
          exact (hperm.cons _).trans hsplit.symm

/-- The structured `KeyDerivationPath` (src/src/kdf/types.ts): `chain`,
optional `domain`, optional `meta`.  Fields are `Option`s because
`getCanonicalizedDerivationPath` drops `null`/`undefined` fields via
`pickBy`; `none` models all of absent, `undefined` and `null`. -/
structure KeyDerivationPath where
  chain : Option Int
  domain : Option String
  meta : Option Json

/-- `pickBy({chain, domain, meta}, v => v !== undefined && v !== null)`:
the defined fields, in insertion order chain, domain, meta. -/
def pathEntries (p : KeyDerivationPath) : JsonObj :=
  let metaEntries : JsonObj :=
    match p.meta with
    | some m => .cons "meta" m .nil
    | none => .nil
  let domainEntries : JsonObj :=
    match p.domain with
    | some d => .cons "domain" (.str d) metaEntries
    | none => metaEntries
  match p.chain with
  | some c => .cons "chain" (.num c) domainEntries
  | none => domainEntries

/-- `getCanonicalizedDerivationPath` (unnamed/part_006 lines 5-17):
RFC 8785 canonicalization of the pickBy-filtered object.  (`canonicalize`
returns `undefined` only for an `undefined` input, never for an object, so
the `?? ''` fallback in the source is dead code here.) -/
def getCanonicalizedDerivationPath (p : KeyDerivationPath) : String :=
  canonicalizeJson (.obj (pathEntries p))

/-- Equality of structured paths up to key ordering (at any depth) and up
to omission of `null`/`undefined` among the top-level chain/domain/meta
fields (all represented by `none`). -/
def pathEquiv (p q : KeyDerivationPath) : Bool :=
  p.chain == q.chain && p.domain == q.domain &&
    match p.meta, q.meta with
    | none, none => true
    | some m1, some m2 => jsonEquiv m1 m2
    | _, _ => false

/-- Well-formedness of a path: its metadata has duplicate-free keys. -/
def pathWF (p : KeyDerivationPath) : Bool :=
  match p.meta with
  | some m => jsonWF m
  | none => true

theorem pathEntries_wf (p : KeyDerivationPath) (h : pathWF p = true) :
    objWF (pathEntries p) = true := by
  obtain ⟨c, d, m⟩ := p
  cases c <;> cases d <;> cases m <;>
    simp_all [pathWF, pathEntries, objWF, jsonWF, keysOf, List.contains]

theorem pathEquiv_objEquiv (p q : KeyDerivationPath)
    (h : pathEquiv p q = true) :
    objEquiv (pathEntries p) (pathEntries q) = true := by
  obtain ⟨c1, d1, m1⟩ := p
  obtain ⟨c2, d2, m2⟩ := q
  simp only [pathEquiv, Bool.and_eq_true, beq_iff_eq] at h
  obtain ⟨⟨hc, hd⟩, hm⟩ := h
  subst hc
  subst hd
  cases c1 <;> cases d1 <;> cases m1 <;> cases m2 <;>
    simp_all [pathEntries, objEquiv, objIsEmpty, removeKey, jsonEquiv]

/-- C2: for any two structured derivation paths with duplicate-free object
keys whose content is equal up to key ordering (at any depth) and up to
which of the top-level chain/domain/meta fields are null/undefined/absent,
`getCanonicalizedDerivationPath` returns byte-identical strings — the
RFC 8785 canonical JSON (keys sorted, no insignificant whitespace) of the
object restricted to the defined chain, domain, and meta fields. -/
theorem getCanonicalizedDerivationPath_respects_equiv
    (p q : KeyDerivationPath) (hp : pathWF p = true) (hq : pathWF q = true)
    (h : pathEquiv p q = true) :
    getCanonicalizedDerivationPath p = getCanonicalizedDerivationPath q := by
  have hwp := pathEntries_wf p hp
  have hwq := pathEntries_wf q hq
  have hequiv := pathEquiv_objEquiv p q h
  exact (canonEquiv_aux (jsonSize (.obj (pathEntries p)))).1
    (.obj (pathEntries p)) (.obj (pathEntries q)) le_rfl
    (by simp [jsonWF, hwp]) (by simp [jsonWF, hwq])
    (by simp [jsonEquiv, hequiv])

/-- The spec's first canonicalization test vector. -/
def pathP1 : KeyDerivationPath :=
  ⟨some 60, some "example.com",
   some (.obj (.cons "a" (.num 1) (.cons "b" (.num 2) .nil)))⟩

/-- The same content with the meta keys reordered. -/
def pathP2 : KeyDerivationPath :=
  ⟨some 60, some "example.com",
   some (.obj (.cons "b" (.num 2) (.cons "a" (.num 1) .nil)))⟩

/-- Witness for C2: the spec's concrete vector, including the expected
canonical output string. -/
theorem getCanonicalizedDerivationPath_respects_equiv_witness :
    getCanonicalizedDerivationPath pathP1 = getCanonicalizedDerivationPath pathP2 ∧
    getCanonicalizedDerivationPath pathP1 =
      "\x7b\"chain\":60,\"domain\":\"example.com\",\"meta\":\x7b\"a\":1,\"b\":2\x7d\x7d" :=
  ⟨getCanonicalizedDerivationPath_respects_equiv pathP1 pathP2
    (by decide) (by decide) (by decide), by decide⟩
